import Mathlib

/-!
Shallow embedding of `JVD/gensamples.py`, a script that draws 100 samples
from each of three distributions (normal, uniform, exponential) and writes
each sample set to a text file, one value per line.

The script is three identical blocks of the form

    with open(PATH, 'w') as f:
        for n in st.DIST.rvs(loc=L, scale=S, size=100):
            f.write('{}\n'.format(n))

We model:
- the filesystem as a map from path to optional contents;
- `scipy.stats.<dist>.rvs(loc, scale, size)` as the location-scale transform
  `loc + scale * v` applied to `size` standard variates drawn sequentially
  from the process-wide random stream;
- Python's default float formatting as an abstract function `fmt : ℚ → String`
  (floats are abstracted as rationals);
- I/O failure through two oracles: `canOpen` (whether opening a path for
  writing succeeds) and `failAt` (the index of the first write on a path
  that raises, if any);
- the observable behaviour of a run as a trace of open/write/close/fail
  events plus the final filesystem and the process exit code (0 on success,
  1 for an uncaught exception, as in CPython).
-/

namespace Gensamples

/-- A filesystem: maps a path to its contents, `none` when the file is absent. -/
abbrev FS := String → Option String

/-- Writing (creating or truncating) a file at `path` with the given contents. -/
def FS.update (fs : FS) (path : String) (content : String) : FS :=
  fun p => if p = path then some content else fs p

/-- Observable I/O events of a run. -/
inductive Event where
  | opened (path : String)
  | wrote (path : String) (chunk : String)
  | closed (path : String)
  | failed (path : String)
deriving DecidableEq

/-- The environment a run executes in: the I/O oracles, the runtime's
float-to-string conversion, and the process-wide stream of standard variates. -/
structure Env where
  canOpen : String → Bool
  failAt : String → Option ℕ
  fmt : ℚ → String
  variates : ℕ → ℚ

/-- The output paths hard-coded in the script. -/
def normalPath : String := "data/normal.txt"

def uniformPath : String := "data/uniform.txt"

def exponentialPath : String := "data/exponential.txt"

/-- `scipy.stats.<dist>.rvs(loc, scale, size)`: the location-scale transform of
`size` standard variates taken from the shared stream starting at `pos`. -/
def rvs (loc scale : ℚ) (size : ℕ) (stream : ℕ → ℚ) (pos : ℕ) : List ℚ :=
  (List.range size).map fun i => loc + scale * stream (pos + i)

/-- `st.norm.rvs(loc=100., scale=10., size=100)`, consuming stream positions 0–99. -/
def normSamples (env : Env) : List ℚ := rvs 100 10 100 env.variates 0

/-- `st.uniform.rvs(loc=75., scale=50., size=100)`, consuming stream positions 100–199. -/
def uniformSamples (env : Env) : List ℚ := rvs 75 50 100 env.variates 100

/-- `st.expon.rvs(loc=0., scale=100., size=100)`, consuming stream positions 200–299. -/
def exponSamples (env : Env) : List ℚ := rvs 0 100 100 env.variates 200

/-- One line of output: `'{}\n'.format(n)`. -/
def lineOf (env : Env) (v : ℚ) : String := env.fmt v ++ "\n"

/-- The contents accumulated by the `f.write` loop over `samples`. -/
def contentOf (env : Env) : List ℚ → String
  | [] => ""
  | v :: rest => lineOf env v ++ contentOf env rest

/-- The write events emitted by the `f.write` loop over `samples`. -/
def writeEvents (env : Env) (path : String) (samples : List ℚ) : List Event :=
  samples.map fun v => Event.wrote path (lineOf env v)

/-- One `with open(path, 'w') as f: for n in samples: f.write(...)` block.
Returns the filesystem after the block, the events it emitted, and whether it
completed without raising. Opening truncates; the `with` statement closes the
handle before an exception from a write propagates; an open failure acquires
no handle and leaves the file untouched. -/
def writeBlock (env : Env) (path : String) (samples : List ℚ) (fs : FS) :
    FS × List Event × Bool :=
  if env.canOpen path then
    match env.failAt path with
    | some k =>
      if k < samples.length then
        (fs.update path (contentOf env (samples.take k)),
         Event.opened path ::
           (writeEvents env path (samples.take k) ++
             [Event.closed path, Event.failed path]),
         false)
      else
        (fs.update path (contentOf env samples),
         Event.opened path :: (writeEvents env path samples ++ [Event.closed path]),
         true)
    | none =>
      (fs.update path (contentOf env samples),
       Event.opened path :: (writeEvents env path samples ++ [Event.closed path]),
       true)
  else
    (fs, [Event.failed path], false)

/-- Result of a run: the event trace, the final filesystem, and the exit code. -/
structure RunResult where
  trace : List Event
  files : FS
  exit : ℕ

/-- The whole script: three sequential generate-and-write blocks. An uncaught
exception in one block aborts the run (exit code 1) before the next block. -/
def gensamples (env : Env) (fs0 : FS) : RunResult :=
  let r1 := writeBlock env normalPath (normSamples env) fs0
  if r1.2.2 then
    let r2 := writeBlock env uniformPath (uniformSamples env) r1.1
    if r2.2.2 then
      let r3 := writeBlock env exponentialPath (exponSamples env) r2.1
      ⟨r1.2.1 ++ r2.2.1 ++ r3.2.1, r3.1, if r3.2.2 then 0 else 1⟩
    else ⟨r1.2.1 ++ r2.2.1, r2.1, 1⟩
  else ⟨r1.2.1, r1.1, 1⟩

/-- Whether the block writing `size` samples to `path` completes without an
I/O error in environment `env`. -/
def blockOk (env : Env) (path : String) (size : ℕ) : Bool :=
  env.canOpen path &&
    match env.failAt path with
    | some k => decide (size ≤ k)
    | none => true

/-- Whether the whole run succeeds. -/
def allOk (env : Env) : Bool :=
  blockOk env normalPath 100 && blockOk env uniformPath 100 &&
    blockOk env exponentialPath 100

/-- The event trace of one successful block. -/
def blockTrace (env : Env) (path : String) (samples : List ℚ) : List Event :=
  Event.opened path :: (writeEvents env path samples ++ [Event.closed path])

/-- The trace of a fully successful run. -/
def successTrace (env : Env) : List Event :=
  blockTrace env normalPath (normSamples env) ++
    blockTrace env uniformPath (uniformSamples env) ++
      blockTrace env exponentialPath (exponSamples env)

/-- The filesystem after a fully successful run. -/
def successFS (env : Env) (fs0 : FS) : FS :=
  ((fs0.update normalPath (contentOf env (normSamples env))).update
      uniformPath (contentOf env (uniformSamples env))).update
    exponentialPath (contentOf env (exponSamples env))

/-- Number of newline characters in a string; since every written line is
newline-terminated, this is the file's line count. -/
def countNl (s : String) : ℕ := s.data.count '\n'

/-- Re-running the generator: fold the runs over the filesystem. -/
def runMany (envs : List Env) (fs0 : FS) : FS :=
  envs.foldl (fun fs e => (gensamples e fs).files) fs0

/-- The path an event is about. -/
def Event.path : Event → String
  | .opened p => p
  | .wrote p _ => p
  | .closed p => p
  | .failed p => p

lemma FS.update_same (fs : FS) (p : String) (c : String) :
    FS.update fs p c p = some c := by
  simp [FS.update]

lemma FS.update_other (fs : FS) (p : String) (c : String) (q : String) (h : q ≠ p) :
    FS.update fs p c q = fs q := by
  simp [FS.update, h]

lemma normal_ne_uniform : normalPath ≠ uniformPath := by decide

lemma normal_ne_expon : normalPath ≠ exponentialPath := by decide

lemma uniform_ne_expon : uniformPath ≠ exponentialPath := by decide

lemma length_rvs (loc scale : ℚ) (size : ℕ) (stream : ℕ → ℚ) (pos : ℕ) :
    (rvs loc scale size stream pos).length = size := by
  simp [rvs]

lemma length_normSamples (env : Env) : (normSamples env).length = 100 :=
  length_rvs ..

lemma length_uniformSamples (env : Env) : (uniformSamples env).length = 100 :=
  length_rvs ..

lemma length_exponSamples (env : Env) : (exponSamples env).length = 100 :=
  length_rvs ..

lemma writeBlock_of_ok (env : Env) (path : String) (samples : List ℚ) (fs : FS)
    (h : blockOk env path samples.length = true) :
    writeBlock env path samples fs =
      (fs.update path (contentOf env samples), blockTrace env path samples, true) := by
  unfold writeBlock blockTrace
  unfold blockOk at h
  rw [Bool.and_eq_true] at h
  rw [if_pos h.1]
  cases hf : env.failAt path with
  | none => rfl
  | some k =>
    rw [hf] at h
    have hk : ¬ k < samples.length := by
      have := of_decide_eq_true h.2
      omega
    simp only [if_neg hk]

lemma writeBlock_ok_iff (env : Env) (path : String) (samples : List ℚ) (fs : FS) :
    (writeBlock env path samples fs).2.2 = blockOk env path samples.length := by
  unfold writeBlock blockOk
  cases hc : env.canOpen path with
  | false => simp
  | true =>
    cases hf : env.failAt path with
    | none => simp
    | some k =>
      by_cases hk : k < samples.length <;> simp [hk]
      all_goals omega

lemma writeBlock_preserves (env : Env) (path : String) (samples : List ℚ) (fs : FS)
    (q : String) (h : q ≠ path) :
    (writeBlock env path samples fs).1 q = fs q := by
  unfold writeBlock
  cases hc : env.canOpen path with
  | false => simp
  | true =>
    cases hf : env.failAt path with
    | none => simpa using FS.update_other fs path _ q h
    | some k =>
      by_cases hk : k < samples.length <;>
        simp only [if_pos, if_neg, hk, if_true, if_false] <;>
          exact FS.update_other fs path _ q h

lemma gensamples_of_ok (env : Env) (fs0 : FS) (h : allOk env = true) :
    gensamples env fs0 = ⟨successTrace env, successFS env fs0, 0⟩ := by
  unfold allOk at h
  rw [Bool.and_eq_true, Bool.and_eq_true] at h
  obtain ⟨⟨h1, h2⟩, h3⟩ := h
  rw [← length_normSamples env] at h1
  rw [← length_uniformSamples env] at h2
  rw [← length_exponSamples env] at h3
  unfold gensamples
  rw [writeBlock_of_ok env normalPath (normSamples env) fs0 h1]
  simp only [if_true]
  rw [writeBlock_of_ok env uniformPath (uniformSamples env) _ h2]
  simp only [if_true]
  rw [writeBlock_of_ok env exponentialPath (exponSamples env) _ h3]
  simp only [if_true]
  rfl

lemma gensamples_exit (env : Env) (fs0 : FS) :
    (gensamples env fs0).exit = if allOk env = true then 0 else 1 := by
  unfold gensamples allOk
  cases h1 : blockOk env normalPath 100 with
  | false =>
    have e1 : (writeBlock env normalPath (normSamples env) fs0).2.2 = false := by
      rw [writeBlock_ok_iff, length_normSamples, h1]
    simp [e1, h1]
  | true =>
    have e1 : (writeBlock env normalPath (normSamples env) fs0).2.2 = true := by
      rw [writeBlock_ok_iff, length_normSamples, h1]
    cases h2 : blockOk env uniformPath 100 with
    | false =>
      have e2 : ∀ fs, (writeBlock env uniformPath (uniformSamples env) fs).2.2 = false := by
        intro fs; rw [writeBlock_ok_iff, length_uniformSamples, h2]
      simp [e1, e2, h1, h2]
    | true =>
      have e2 : ∀ fs, (writeBlock env uniformPath (uniformSamples env) fs).2.2 = true := by
        intro fs; rw [writeBlock_ok_iff, length_uniformSamples, h2]
      cases h3 : blockOk env exponentialPath 100 with
      | false =>
        have e3 : ∀ fs, (writeBlock env exponentialPath (exponSamples env) fs).2.2 = false := by
          intro fs; rw [writeBlock_ok_iff, length_exponSamples, h3]
        simp [e1, e2, e3, h1, h2, h3]
      | true =>
        have e3 : ∀ fs, (writeBlock env exponentialPath (exponSamples env) fs).2.2 = true := by
          intro fs; rw [writeBlock_ok_iff, length_exponSamples, h3]
        simp [e1, e2, e3, h1, h2, h3]

lemma exit_eq_zero_iff (env : Env) (fs0 : FS) :
    (gensamples env fs0).exit = 0 ↔ allOk env = true := by
  rw [gensamples_exit]
  by_cases h : allOk env = true <;> simp [h]

lemma countNl_append (a b : String) : countNl (a ++ b) = countNl a + countNl b := by
  simp [countNl, String.data_append, List.count_append]

lemma countNl_lineOf (env : Env) (v : ℚ) (h : '\n' ∉ (env.fmt v).data) :
    countNl (lineOf env v) = 1 := by
  unfold lineOf
  rw [countNl_append]
  have h0 : countNl (env.fmt v) = 0 := by
    unfold countNl
    rw [List.count_eq_zero]
    simpa using h
  rw [h0]
  rfl

lemma countNl_contentOf (env : Env) (l : List ℚ)
    (h : ∀ v ∈ l, '\n' ∉ (env.fmt v).data) :
    countNl (contentOf env l) = l.length := by
  induction l with
  | nil => rfl
  | cons a t ih =>
    unfold contentOf
    rw [countNl_append, countNl_lineOf env a (h a (List.mem_cons_self a t)),
      ih fun v hv => h v (List.mem_cons_of_mem a hv)]
    simp only [List.length_cons]
    omega

lemma contentOf_eq_join (env : Env) (l : List ℚ) :
    contentOf env l = String.join (l.map (lineOf env)) := by
  induction l with
  | nil => rfl
  | cons a t ih =>
    unfold contentOf
    rw [ih]
    apply String.ext
    simp [String.data_join, String.data_append]

lemma successFS_normal (env : Env) (fs0 : FS) :
    successFS env fs0 normalPath = some (contentOf env (normSamples env)) := by
  unfold successFS
  rw [FS.update_other _ _ _ _ normal_ne_expon, FS.update_other _ _ _ _ normal_ne_uniform,
    FS.update_same]

lemma successFS_uniform (env : Env) (fs0 : FS) :
    successFS env fs0 uniformPath = some (contentOf env (uniformSamples env)) := by
  unfold successFS
  rw [FS.update_other _ _ _ _ uniform_ne_expon, FS.update_same]

lemma successFS_expon (env : Env) (fs0 : FS) :
    successFS env fs0 exponentialPath = some (contentOf env (exponSamples env)) := by
  unfold successFS
  rw [FS.update_same]

lemma successFS_other (env : Env) (fs0 : FS) (p : String)
    (h1 : p ≠ normalPath) (h2 : p ≠ uniformPath) (h3 : p ≠ exponentialPath) :
    successFS env fs0 p = fs0 p := by
  unfold successFS
  rw [FS.update_other _ _ _ _ h3, FS.update_other _ _ _ _ h2, FS.update_other _ _ _ _ h1]

/-- The events one block emits; they do not depend on the filesystem. -/
def blockEvents (env : Env) (path : String) (samples : List ℚ) : List Event :=
  if env.canOpen path then
    match env.failAt path with
    | some k =>
      if k < samples.length then
        Event.opened path ::
          (writeEvents env path (samples.take k) ++
            [Event.closed path, Event.failed path])
      else blockTrace env path samples
    | none => blockTrace env path samples
  else [Event.failed path]

lemma writeBlock_trace (env : Env) (path : String) (samples : List ℚ) (fs : FS) :
    (writeBlock env path samples fs).2.1 = blockEvents env path samples := by
  unfold writeBlock blockEvents blockTrace
  cases env.canOpen path with
  | false => simp
  | true =>
    cases env.failAt path with
    | none => simp
    | some k => by_cases hk : k < samples.length <;> simp [hk]

lemma gensamples_trace (env : Env) (fs0 : FS) :
    (gensamples env fs0).trace =
      if blockOk env normalPath 100 then
        if blockOk env uniformPath 100 then
          blockEvents env normalPath (normSamples env) ++
            blockEvents env uniformPath (uniformSamples env) ++
              blockEvents env exponentialPath (exponSamples env)
        else
          blockEvents env normalPath (normSamples env) ++
            blockEvents env uniformPath (uniformSamples env)
      else blockEvents env normalPath (normSamples env) := by
  unfold gensamples
  cases h1 : blockOk env normalPath 100 with
  | false =>
    have e1 : (writeBlock env normalPath (normSamples env) fs0).2.2 = false := by
      rw [writeBlock_ok_iff, length_normSamples, h1]
    simp [e1, writeBlock_trace]
  | true =>
    have e1 : (writeBlock env normalPath (normSamples env) fs0).2.2 = true := by
      rw [writeBlock_ok_iff, length_normSamples, h1]
    cases h2 : blockOk env uniformPath 100 with
    | false =>
      have e2 : ∀ fs, (writeBlock env uniformPath (uniformSamples env) fs).2.2 = false := by
        intro fs; rw [writeBlock_ok_iff, length_uniformSamples, h2]
      simp [e1, e2, writeBlock_trace]
    | true =>
      have e2 : ∀ fs, (writeBlock env uniformPath (uniformSamples env) fs).2.2 = true := by
        intro fs; rw [writeBlock_ok_iff, length_uniformSamples, h2]
      by_cases h3 : (writeBlock env exponentialPath (exponSamples env)
          (writeBlock env uniformPath (uniformSamples env)
            (writeBlock env normalPath (normSamples env) fs0).1).1).2.2 = true <;>
        simp [e1, e2, h3, writeBlock_trace]

lemma count_writeEvents_opened (env : Env) (path : String) (samples : List ℚ) (p : String) :
    (writeEvents env path samples).count (Event.opened p) = 0 := by
  rw [List.count_eq_zero]
  unfold writeEvents
  simp

lemma count_writeEvents_closed (env : Env) (path : String) (samples : List ℚ) (p : String) :
    (writeEvents env path samples).count (Event.closed p) = 0 := by
  rw [List.count_eq_zero]
  unfold writeEvents
  simp

lemma count_cons_event (a e : Event) (l : List Event) :
    (a :: l).count e = l.count e + if e = a then 1 else 0 := by
  simp only [List.count_cons, beq_iff_eq]
  congr 1
  by_cases h : e = a
  · rw [if_pos h, if_pos h.symm]
  · rw [if_neg fun hh => h hh.symm, if_neg h]

lemma count_tail_shape (env : Env) (path : String) (l : List ℚ) (tail : List Event)
    (p : String) :
    (Event.opened path :: (writeEvents env path l ++ tail)).count (Event.opened p) =
      (if p = path then 1 else 0) + tail.count (Event.opened p) ∧
    (Event.opened path :: (writeEvents env path l ++ tail)).count (Event.closed p) =
      tail.count (Event.closed p) := by
  constructor
  · rw [count_cons_event, List.count_append, count_writeEvents_opened]
    by_cases hp : p = path
    · subst hp
      rw [if_pos rfl, if_pos rfl]
      omega
    · rw [if_neg fun hh => hp (Event.opened.inj hh), if_neg hp]
      omega
  · rw [count_cons_event, List.count_append, count_writeEvents_closed]
    rw [if_neg fun hh => Event.noConfusion hh]
    omega

lemma count_single_event (a e : Event) : ([a] : List Event).count e = if e = a then 1 else 0 := by
  rw [count_cons_event, List.count_nil]
  omega

lemma count_blockTrace (env : Env) (path : String) (samples : List ℚ) (p : String) :
    (blockTrace env path samples).count (Event.opened p) =
      (blockTrace env path samples).count (Event.closed p) ∧
    (blockTrace env path samples).count (Event.opened p) ≤
      if p = path then 1 else 0 := by
  obtain ⟨ho, hc⟩ := count_tail_shape env path samples [Event.closed path] p
  unfold blockTrace
  rw [ho, hc, count_single_event, count_single_event]
  rw [if_neg fun hh => Event.noConfusion hh]
  by_cases hp : p = path
  · subst hp
    rw [if_pos rfl, if_pos rfl]
    omega
  · rw [if_neg hp, if_neg fun hh => hp (Event.closed.inj hh)]
    omega

lemma count_blockEvents (env : Env) (path : String) (samples : List ℚ) (p : String) :
    (blockEvents env path samples).count (Event.opened p) =
      (blockEvents env path samples).count (Event.closed p) ∧
    (blockEvents env path samples).count (Event.opened p) ≤
      if p = path then 1 else 0 := by
  unfold blockEvents
  split
  · split
    · split
      · obtain ⟨ho, hc⟩ := count_tail_shape env path _
          [Event.closed path, Event.failed path] p
        rw [ho, hc, count_cons_event, count_single_event, count_cons_event,
          count_single_event]
        rw [if_neg fun hh => Event.noConfusion hh, if_neg fun hh => Event.noConfusion hh,
          if_neg fun hh => Event.noConfusion hh]
        by_cases hp : p = path
        · subst hp
          rw [if_pos rfl, if_pos rfl]
          omega
        · rw [if_neg hp, if_neg fun hh => hp (Event.closed.inj hh)]
          omega
      · exact count_blockTrace env path samples p
    · exact count_blockTrace env path samples p
  · rw [count_single_event, count_single_event]
    rw [if_neg fun hh => Event.noConfusion hh, if_neg fun hh => Event.noConfusion hh]
    omega

lemma blockEvents_fail (env : Env) (path : String) (samples : List ℚ)
    (h : blockOk env path samples.length = false) :
    ∃ t, blockEvents env path samples = t ++ [Event.failed path] := by
  unfold blockOk at h
  unfold blockEvents
  cases hc : env.canOpen path with
  | false => exact ⟨[], rfl⟩
  | true =>
    rw [hc] at h
    cases hf : env.failAt path with
    | none => simp [hf] at h
    | some k =>
      rw [hf] at h
      simp only [Bool.true_and] at h
      have hk : k < samples.length := by
        by_contra hge
        rw [decide_eq_false_iff_not] at h
        omega
      refine ⟨Event.opened path :: (writeEvents env path (samples.take k) ++ [Event.closed path]), ?_⟩
      simp [hk]

/-- A concrete environment in which every open and write succeeds. -/
def env0 : Env :=
  ⟨fun _ => true, fun _ => none, fun _ => "0.0", fun _ => 0⟩

/-- Like `env0` but with an irrelevant write failure configured on an
unrelated path. -/
def env1 : Env :=
  ⟨fun _ => true, fun p => if p = "other.txt" then some 0 else none,
   fun _ => "0.0", fun _ => 0⟩

/-- A concrete environment in which `data/normal.txt` cannot be opened. -/
def envNoNormal : Env :=
  ⟨fun p => decide (p ≠ normalPath), fun _ => none, fun _ => "0.0", fun _ => 0⟩

/-- The empty filesystem. -/
def fs0Empty : FS := fun _ => none

/-- A filesystem in which every path already holds stale contents. -/
def fsJunk : FS := fun _ => some "junk"

end Gensamples

namespace Gensamples

/-- C1: for every successful run with a writable `data/` directory, the program
creates exactly the three output files `data/normal.txt`, `data/uniform.txt`
and `data/exponential.txt` (every other path is untouched), and each file
contains exactly 100 newline-terminated lines, one per generated sample. -/
theorem C1_three_files_hundred_lines (env : Env) (fs0 : FS)
    (hok : allOk env = true) (hfmt : ∀ v : ℚ, '\n' ∉ (env.fmt v).data) :
    (∃ c, (gensamples env fs0).files normalPath = some c ∧ countNl c = 100) ∧
    (∃ c, (gensamples env fs0).files uniformPath = some c ∧ countNl c = 100) ∧
    (∃ c, (gensamples env fs0).files exponentialPath = some c ∧ countNl c = 100) ∧
    (∀ p, p ≠ normalPath → p ≠ uniformPath → p ≠ exponentialPath →
      (gensamples env fs0).files p = fs0 p) := by
  rw [gensamples_of_ok env fs0 hok]
  refine ⟨⟨_, successFS_normal env fs0, ?_⟩, ⟨_, successFS_uniform env fs0, ?_⟩,
    ⟨_, successFS_expon env fs0, ?_⟩, ?_⟩
  · rw [countNl_contentOf env _ fun v _ => hfmt v, length_normSamples]
  · rw [countNl_contentOf env _ fun v _ => hfmt v, length_uniformSamples]
  · rw [countNl_contentOf env _ fun v _ => hfmt v, length_exponSamples]
  · intro p h1 h2 h3
    exact successFS_other env fs0 p h1 h2 h3

theorem C1_witness :
    allOk env0 = true ∧ (∀ v : ℚ, '\n' ∉ (env0.fmt v).data) ∧
    ((∃ c, (gensamples env0 fs0Empty).files normalPath = some c ∧ countNl c = 100) ∧
     (∃ c, (gensamples env0 fs0Empty).files uniformPath = some c ∧ countNl c = 100) ∧
     (∃ c, (gensamples env0 fs0Empty).files exponentialPath = some c ∧ countNl c = 100) ∧
     (∀ p, p ≠ normalPath → p ≠ uniformPath → p ≠ exponentialPath →
       (gensamples env0 fs0Empty).files p = fs0Empty p)) :=
  ⟨by decide, fun v => show '\n' ∉ ("0.0" : String).data by decide,
    C1_three_files_hundred_lines env0 fs0Empty (by decide)
      fun v => show '\n' ∉ ("0.0" : String).data by decide⟩

/-- C2: for every successful run, the content of each output file is exactly
the concatenation, in generation order, of the runtime's float-to-string
conversion of each generated value followed by a single newline. -/
theorem C2_content_is_concatenation (env : Env) (fs0 : FS) (hok : allOk env = true) :
    (gensamples env fs0).files normalPath =
      some (String.join ((normSamples env).map fun v => env.fmt v ++ "\n")) ∧
    (gensamples env fs0).files uniformPath =
      some (String.join ((uniformSamples env).map fun v => env.fmt v ++ "\n")) ∧
    (gensamples env fs0).files exponentialPath =
      some (String.join ((exponSamples env).map fun v => env.fmt v ++ "\n")) := by
  rw [gensamples_of_ok env fs0 hok]
  have hn := successFS_normal env fs0
  have hu := successFS_uniform env fs0
  have he := successFS_expon env fs0
  rw [contentOf_eq_join] at hn hu he
  exact ⟨hn, hu, he⟩

theorem C2_witness :
    allOk env0 = true ∧
    ((gensamples env0 fs0Empty).files normalPath =
      some (String.join ((normSamples env0).map fun v => env0.fmt v ++ "\n")) ∧
     (gensamples env0 fs0Empty).files uniformPath =
      some (String.join ((uniformSamples env0).map fun v => env0.fmt v ++ "\n")) ∧
     (gensamples env0 fs0Empty).files exponentialPath =
      some (String.join ((exponSamples env0).map fun v => env0.fmt v ++ "\n"))) :=
  ⟨by decide, C2_content_is_concatenation env0 fs0Empty (by decide)⟩

/-- C3: the samples written to each file are produced with exactly the
parameters in the source: normal with loc 100 and scale 10, uniform with
loc 75 and scale 50, exponential with loc 0 and scale 100, each applied as
the location-scale transform of 100 standard variates. -/
theorem C3_distribution_parameters (env : Env) (fs0 : FS) (hok : allOk env = true) :
    (gensamples env fs0).files normalPath =
      some (contentOf env ((List.range 100).map fun i => 100 + 10 * env.variates i)) ∧
    (gensamples env fs0).files uniformPath =
      some (contentOf env ((List.range 100).map fun i => 75 + 50 * env.variates (100 + i))) ∧
    (gensamples env fs0).files exponentialPath =
      some (contentOf env ((List.range 100).map fun i => 0 + 100 * env.variates (200 + i))) := by
  rw [gensamples_of_ok env fs0 hok]
  have hn : normSamples env = (List.range 100).map fun i => 100 + 10 * env.variates i := by
    simp [normSamples, rvs]
  have hu : uniformSamples env =
      (List.range 100).map fun i => 75 + 50 * env.variates (100 + i) := by
    simp [uniformSamples, rvs]
  have he : exponSamples env =
      (List.range 100).map fun i => 0 + 100 * env.variates (200 + i) := by
    simp [exponSamples, rvs]
  refine ⟨?_, ?_, ?_⟩
  · rw [← hn]; exact successFS_normal env fs0
  · rw [← hu]; exact successFS_uniform env fs0
  · rw [← he]; exact successFS_expon env fs0

theorem C3_witness :
    allOk env0 = true ∧
    ((gensamples env0 fs0Empty).files normalPath =
      some (contentOf env0 ((List.range 100).map fun i => 100 + 10 * env0.variates i)) ∧
     (gensamples env0 fs0Empty).files uniformPath =
      some (contentOf env0 ((List.range 100).map fun i => 75 + 50 * env0.variates (100 + i))) ∧
     (gensamples env0 fs0Empty).files exponentialPath =
      some (contentOf env0 ((List.range 100).map fun i => 0 + 100 * env0.variates (200 + i)))) :=
  ⟨by decide, C3_distribution_parameters env0 fs0Empty (by decide)⟩

lemma path_of_mem_blockTrace (env : Env) (path : String) (samples : List ℚ) (e : Event)
    (he : e ∈ blockTrace env path samples) : Event.path e = path := by
  unfold blockTrace at he
  rcases List.mem_cons.1 he with h | h
  · subst h; rfl
  · rcases List.mem_append.1 h with h | h
    · unfold writeEvents at h
      obtain ⟨v, _, rfl⟩ := List.mem_map.1 h
      rfl
    · rw [List.mem_singleton] at h
      subst h; rfl

/-- C4: in every successful run the side effects happen strictly sequentially:
the trace is exactly the normal-file block (open, 100 writes, close), then the
uniform-file block, then the exponential-file block, each block touching only
its own path; and no step depends on another step's output, since the whole
trace and the written contents are independent of the initial filesystem. -/
theorem C4_sequential_side_effects (env : Env) (fs0 : FS) (hok : allOk env = true) :
    (gensamples env fs0).trace =
      blockTrace env normalPath (normSamples env) ++
        blockTrace env uniformPath (uniformSamples env) ++
          blockTrace env exponentialPath (exponSamples env) ∧
    (∀ e ∈ blockTrace env normalPath (normSamples env), Event.path e = normalPath) ∧
    (∀ e ∈ blockTrace env uniformPath (uniformSamples env), Event.path e = uniformPath) ∧
    (∀ e ∈ blockTrace env exponentialPath (exponSamples env),
      Event.path e = exponentialPath) ∧
    (∀ fs1 : FS, (gensamples env fs1).trace = (gensamples env fs0).trace ∧
      ∀ p, p = normalPath ∨ p = uniformPath ∨ p = exponentialPath →
        (gensamples env fs1).files p = (gensamples env fs0).files p) := by
  refine ⟨?_, fun e he => path_of_mem_blockTrace env _ _ e he,
    fun e he => path_of_mem_blockTrace env _ _ e he,
    fun e he => path_of_mem_blockTrace env _ _ e he, ?_⟩
  · rw [gensamples_of_ok env fs0 hok]
    rfl
  · intro fs1
    rw [gensamples_of_ok env fs0 hok, gensamples_of_ok env fs1 hok]
    refine ⟨rfl, ?_⟩
    intro p hp
    rcases hp with rfl | rfl | rfl
    · exact (successFS_normal env fs1).trans (successFS_normal env fs0).symm
    · exact (successFS_uniform env fs1).trans (successFS_uniform env fs0).symm
    · exact (successFS_expon env fs1).trans (successFS_expon env fs0).symm

theorem C4_witness :
    allOk env0 = true ∧
    ((gensamples env0 fsJunk).trace =
      blockTrace env0 normalPath (normSamples env0) ++
        blockTrace env0 uniformPath (uniformSamples env0) ++
          blockTrace env0 exponentialPath (exponSamples env0) ∧
    (∀ e ∈ blockTrace env0 normalPath (normSamples env0), Event.path e = normalPath) ∧
    (∀ e ∈ blockTrace env0 uniformPath (uniformSamples env0), Event.path e = uniformPath) ∧
    (∀ e ∈ blockTrace env0 exponentialPath (exponSamples env0),
      Event.path e = exponentialPath) ∧
    (∀ fs1 : FS, (gensamples env0 fs1).trace = (gensamples env0 fsJunk).trace ∧
      ∀ p, p = normalPath ∨ p = uniformPath ∨ p = exponentialPath →
        (gensamples env0 fs1).files p = (gensamples env0 fsJunk).files p)) :=
  ⟨by decide, C4_sequential_side_effects env0 fsJunk (by decide)⟩

/-- C5: each file is opened for writing with truncation, so after any prior
history of runs, a successful run leaves each of the three output files with
exactly 100 lines — re-running replaces contents rather than appending. -/
theorem C5_rerun_overwrites (envs : List Env) (fs0 : FS)
    (h : ∀ e ∈ envs, allOk e = true ∧ ∀ v : ℚ, '\n' ∉ (e.fmt v).data)
    (hne : envs ≠ []) :
    ∀ p, p = normalPath ∨ p = uniformPath ∨ p = exponentialPath →
      ∃ c, runMany envs fs0 p = some c ∧ countNl c = 100 := by
  rcases List.eq_nil_or_concat envs with rfl | ⟨L, b, hE⟩
  · exact absurd rfl hne
  · rw [List.concat_eq_append] at hE
    subst hE
    obtain ⟨hb, hfmtb⟩ := h b (by simp)
    intro p hp
    have hrun : runMany (L ++ [b]) fs0 = (gensamples b (runMany L fs0)).files := by
      unfold runMany
      rw [List.foldl_append]
      rfl
    rw [hrun, gensamples_of_ok b (runMany L fs0) hb]
    rcases hp with rfl | rfl | rfl
    · exact ⟨_, successFS_normal b (runMany L fs0),
        by rw [countNl_contentOf b _ fun v _ => hfmtb v, length_normSamples]⟩
    · exact ⟨_, successFS_uniform b (runMany L fs0),
        by rw [countNl_contentOf b _ fun v _ => hfmtb v, length_uniformSamples]⟩
    · exact ⟨_, successFS_expon b (runMany L fs0),
        by rw [countNl_contentOf b _ fun v _ => hfmtb v, length_exponSamples]⟩

theorem C5_witness :
    (∀ e ∈ [env0, env0], allOk e = true ∧ ∀ v : ℚ, '\n' ∉ (e.fmt v).data) ∧
    ([env0, env0] : List Env) ≠ [] ∧
    ∀ p, p = normalPath ∨ p = uniformPath ∨ p = exponentialPath →
      ∃ c, runMany [env0, env0] fs0Empty p = some c ∧ countNl c = 100 := by
  have hh : ∀ e ∈ [env0, env0], allOk e = true ∧ ∀ v : ℚ, '\n' ∉ (e.fmt v).data := by
    intro e he
    rcases List.mem_cons.1 he with rfl | he
    · exact ⟨by decide, fun v => show '\n' ∉ ("0.0" : String).data by decide⟩
    · rw [List.mem_singleton] at he
      subst he
      exact ⟨by decide, fun v => show '\n' ∉ ("0.0" : String).data by decide⟩
  exact ⟨hh, by simp, C5_rerun_overwrites [env0, env0] fs0Empty hh (by simp)⟩

/-- C6: given a uniform variate source over [0, 1), every sample destined for
`data/uniform.txt` lies in the half-open interval [75, 125): it is
75 + 50·v for a standard variate v with 0 ≤ v < 1. -/
theorem C6_uniform_in_range (env : Env)
    (h : ∀ i, i < 100 → 0 ≤ env.variates (100 + i) ∧ env.variates (100 + i) < 1) :
    ∀ x ∈ uniformSamples env, 75 ≤ x ∧ x < 125 := by
  intro x hx
  unfold uniformSamples rvs at hx
  simp only [List.mem_map, List.mem_range] at hx
  obtain ⟨i, hi, rfl⟩ := hx
  obtain ⟨h0, h1⟩ := h i hi
  constructor
  · nlinarith
  · nlinarith

theorem C6_witness :
    (∀ i, i < 100 → 0 ≤ env0.variates (100 + i) ∧ env0.variates (100 + i) < 1) ∧
    ∀ x ∈ uniformSamples env0, 75 ≤ x ∧ x < 125 :=
  ⟨fun i _ => show (0 : ℚ) ≤ 0 ∧ (0 : ℚ) < 1 by norm_num,
    C6_uniform_in_range env0 fun i _ => show (0 : ℚ) ≤ 0 ∧ (0 : ℚ) < 1 by norm_num⟩

/-- C7: given non-negative standard exponential variates, every sample
destined for `data/exponential.txt` is non-negative, since the exponential
block uses offset (loc) 0: each sample is 0 + 100·v with v ≥ 0. -/
theorem C7_exponential_nonneg (env : Env)
    (h : ∀ i, i < 100 → 0 ≤ env.variates (200 + i)) :
    ∀ x ∈ exponSamples env, 0 ≤ x := by
  intro x hx
  unfold exponSamples rvs at hx
  simp only [List.mem_map, List.mem_range] at hx
  obtain ⟨i, hi, rfl⟩ := hx
  have h0 := h i hi
  nlinarith

theorem C7_witness :
    (∀ i, i < 100 → 0 ≤ env0.variates (200 + i)) ∧
    ∀ x ∈ exponSamples env0, 0 ≤ x :=
  ⟨fun i _ => show (0 : ℚ) ≤ 0 by norm_num,
    C7_exponential_nonneg env0 fun i _ => show (0 : ℚ) ≤ 0 by norm_num⟩

lemma indicator_sum_le_one (p : String) :
    (if p = normalPath then (1 : ℕ) else 0) + (if p = uniformPath then 1 else 0) +
      (if p = exponentialPath then 1 else 0) ≤ 1 := by
  by_cases h1 : p = normalPath
  · subst h1
    rw [if_pos rfl, if_neg normal_ne_uniform, if_neg normal_ne_expon]
  · rw [if_neg h1]
    by_cases h2 : p = uniformPath
    · subst h2
      rw [if_pos rfl, if_neg uniform_ne_expon]
    · rw [if_neg h2]
      by_cases h3 : p = exponentialPath
      · rw [if_pos h3]
      · rw [if_neg h3]
        omega

/-- C8: the run exits 0 exactly when all opens and writes succeed; any I/O
error makes the run end immediately with that failure as its last event and a
non-zero exit code (no retry, no recovery); and in every run, failing or not,
each acquired file handle is released: opens and closes are balanced, and each
path is opened at most once. -/
theorem C8_failure_semantics (env : Env) (fs0 : FS) :
    ((gensamples env fs0).exit = 0 ↔ allOk env = true) ∧
    ((gensamples env fs0).exit ≠ 0 → (gensamples env fs0).exit = 1) ∧
    (∀ p, (gensamples env fs0).trace.count (Event.opened p) =
        (gensamples env fs0).trace.count (Event.closed p) ∧
      (gensamples env fs0).trace.count (Event.opened p) ≤ 1) ∧
    (¬ allOk env = true →
      ∃ p, (gensamples env fs0).trace.getLast? = some (Event.failed p)) := by
  refine ⟨exit_eq_zero_iff env fs0, ?_, ?_, ?_⟩
  · intro hne
    rw [gensamples_exit] at hne ⊢
    by_cases h : allOk env = true
    · rw [if_pos h] at hne
      exact absurd rfl hne
    · rw [if_neg h]
  · intro p
    rw [gensamples_trace]
    obtain ⟨hn1, hn2⟩ := count_blockEvents env normalPath (normSamples env) p
    obtain ⟨hu1, hu2⟩ := count_blockEvents env uniformPath (uniformSamples env) p
    obtain ⟨he1, he2⟩ := count_blockEvents env exponentialPath (exponSamples env) p
    have hind := indicator_sum_le_one p
    split
    · split
      · constructor
        · simp only [List.count_append]
          omega
        · simp only [List.count_append]
          omega
      · constructor
        · simp only [List.count_append]
          omega
        · simp only [List.count_append]
          omega
    · exact ⟨hn1, by omega⟩
  · intro hfail
    rw [gensamples_trace]
    cases h1 : blockOk env normalPath 100 with
    | false =>
      simp only [h1, Bool.false_eq_true, if_false]
      obtain ⟨t, ht⟩ := blockEvents_fail env normalPath (normSamples env)
        (by rw [length_normSamples]; exact h1)
      exact ⟨normalPath, by rw [ht, List.getLast?_concat]⟩
    | true =>
      cases h2 : blockOk env uniformPath 100 with
      | false =>
        simp only [h1, h2, if_true, Bool.false_eq_true, if_false]
        obtain ⟨t, ht⟩ := blockEvents_fail env uniformPath (uniformSamples env)
          (by rw [length_uniformSamples]; exact h2)
        refine ⟨uniformPath, ?_⟩
        rw [ht, ← List.append_assoc, List.getLast?_concat]
      | true =>
        have h3 : blockOk env exponentialPath 100 = false := by
          unfold allOk at hfail
          rw [h1, h2] at hfail
          simp at hfail
          exact hfail
        simp only [h1, h2, if_true]
        obtain ⟨t, ht⟩ := blockEvents_fail env exponentialPath (exponSamples env)
          (by rw [length_exponSamples]; exact h3)
        refine ⟨exponentialPath, ?_⟩
        rw [ht, ← List.append_assoc, List.getLast?_concat]

/-- C9: the run is fail-fast: if the block for one distribution fails, the
files of the distributions later in the sequence are left exactly as they
were — a failure on `data/normal.txt` leaves `data/uniform.txt` and
`data/exponential.txt` untouched, and a failure on `data/uniform.txt` leaves
`data/exponential.txt` untouched. -/
theorem C9_fail_fast (env : Env) (fs0 : FS) :
    (blockOk env normalPath 100 = false →
      (gensamples env fs0).files uniformPath = fs0 uniformPath ∧
      (gensamples env fs0).files exponentialPath = fs0 exponentialPath) ∧
    (blockOk env normalPath 100 = true → blockOk env uniformPath 100 = false →
      (gensamples env fs0).files exponentialPath = fs0 exponentialPath) := by
  constructor
  · intro h1
    have e1 : (writeBlock env normalPath (normSamples env) fs0).2.2 = false := by
      rw [writeBlock_ok_iff, length_normSamples, h1]
    unfold gensamples
    simp only [e1, Bool.false_eq_true, if_false]
    constructor
    · exact writeBlock_preserves env normalPath (normSamples env) fs0 uniformPath
        (Ne.symm normal_ne_uniform)
    · exact writeBlock_preserves env normalPath (normSamples env) fs0 exponentialPath
        (Ne.symm normal_ne_expon)
  · intro h1 h2
    have e1 : (writeBlock env normalPath (normSamples env) fs0).2.2 = true := by
      rw [writeBlock_ok_iff, length_normSamples, h1]
    have e2 : ∀ fs, (writeBlock env uniformPath (uniformSamples env) fs).2.2 = false := by
      intro fs
      rw [writeBlock_ok_iff, length_uniformSamples, h2]
    unfold gensamples
    simp only [e1, e2, if_true, Bool.false_eq_true, if_false]
    rw [writeBlock_preserves env uniformPath (uniformSamples env) _ exponentialPath
      (Ne.symm uniform_ne_expon)]
    exact writeBlock_preserves env normalPath (normSamples env) fs0 exponentialPath
      (Ne.symm normal_ne_expon)

lemma contentOf_congr (envA envB : Env) (hf : envA.fmt = envB.fmt) (l : List ℚ) :
    contentOf envA l = contentOf envB l := by
  induction l with
  | nil => rfl
  | cons a t ih =>
    unfold contentOf lineOf
    rw [hf, ih]

/-- C10: the output is a deterministic function of the consumed variate
stream: two successful runs whose random sources yield identical value
sequences (and whose runtime formats floats identically) produce identical
contents in all three output files, whatever filesystems they started from. -/
theorem C10_determinism (envA envB : Env) (fsA fsB : FS)
    (hv : envA.variates = envB.variates) (hf : envA.fmt = envB.fmt)
    (h1 : (gensamples envA fsA).exit = 0) (h2 : (gensamples envB fsB).exit = 0) :
    ∀ p, p = normalPath ∨ p = uniformPath ∨ p = exponentialPath →
      (gensamples envA fsA).files p = (gensamples envB fsB).files p := by
  rw [exit_eq_zero_iff] at h1 h2
  have hn : contentOf envA (normSamples envA) = contentOf envB (normSamples envB) := by
    rw [show normSamples envA = normSamples envB by unfold normSamples rvs; rw [hv]]
    exact contentOf_congr envA envB hf _
  have hu : contentOf envA (uniformSamples envA) = contentOf envB (uniformSamples envB) := by
    rw [show uniformSamples envA = uniformSamples envB by unfold uniformSamples rvs; rw [hv]]
    exact contentOf_congr envA envB hf _
  have he : contentOf envA (exponSamples envA) = contentOf envB (exponSamples envB) := by
    rw [show exponSamples envA = exponSamples envB by unfold exponSamples rvs; rw [hv]]
    exact contentOf_congr envA envB hf _
  have ha : (gensamples envA fsA).files = successFS envA fsA := by
    rw [gensamples_of_ok envA fsA h1]
  have hb : (gensamples envB fsB).files = successFS envB fsB := by
    rw [gensamples_of_ok envB fsB h2]
  intro p hp
  rw [ha, hb]
  rcases hp with rfl | rfl | rfl
  · rw [successFS_normal, successFS_normal, hn]
  · rw [successFS_uniform, successFS_uniform, hu]
  · rw [successFS_expon, successFS_expon, he]

theorem C10_witness :
    env0.variates = env1.variates ∧ env0.fmt = env1.fmt ∧
    (gensamples env0 fs0Empty).exit = 0 ∧ (gensamples env1 fsJunk).exit = 0 ∧
    ∀ p, p = normalPath ∨ p = uniformPath ∨ p = exponentialPath →
      (gensamples env0 fs0Empty).files p = (gensamples env1 fsJunk).files p :=
  ⟨rfl, rfl, by decide, by decide,
    C10_determinism env0 env1 fs0Empty fsJunk rfl rfl (by decide) (by decide)⟩

end Gensamples
